import Mathlib

/-!
Shallow embedding of the duckdb-sitemap extension (C++ sources under src/)
and proofs of the spec claims C1..C10.

Byte strings of the C++ code are modelled as `List Char` (ASCII bytes).
External capabilities (HTTP transport, libxml2 document construction,
zlib inflate, HTML link scanning) are parameters of the embedding; all
repository logic is translated directly from the sources.
-/

namespace SitemapExt

/-- Byte strings of the C++ code, modelled as lists of characters. -/
abbrev Str := List Char

/-- The literal "://" used by the protocol checks. -/
def schemeSep : Str := "://".toList

/-- The literal "https://" prepended when a URL has no protocol. -/
def httpsScheme : Str := "https://".toList

/-- ASCII lower-casing of one character, as `std::tolower` on ASCII bytes. -/
def lowerChar (c : Char) : Char :=
  if 'A' ≤ c ∧ c ≤ 'Z' then Char.ofNat (c.toNat + 32) else c

/-- Lower-casing a whole string (`std::transform` with `tolower`). -/
def lowerStr (s : Str) : Str := s.map lowerChar

/-- Does `s` start with `p`? (character-by-character comparison). -/
def strStartsWith : Str → Str → Bool
  | _, [] => true
  | [], _ :: _ => false
  | c :: cs, d :: ds => c = d && strStartsWith cs ds

/-- Substring containment, the semantics of `std::string::find(needle) != npos`. -/
def strContains (hay needle : Str) : Bool :=
  match hay with
  | [] => needle.isEmpty
  | _ :: t => strStartsWith hay needle || strContains t needle

/-- Does `s` end with `suffix`? -/
def strEndsWith (s suf : Str) : Bool :=
  if s.length < suf.length then false
  else s.drop (s.length - suf.length) = suf

/-- The whitespace set " \t\n\r" used by ParseSitemap's trimming
(`find_first_not_of(" \t\n\r")`). -/
def isXmlWs (c : Char) : Bool :=
  c = ' ' || c = '\t' || c = '\n' || c = '\r'

/-- The substring between the first and the last character outside
" \t\n\r" (empty when there is none), as computed by the trimming in
`XmlParser::ParseSitemap` via `find_first_not_of` / `find_last_not_of`. -/
def trimBody (s : Str) : Str :=
  ((s.dropWhile isXmlWs).reverse.dropWhile isXmlWs).reverse

/-- The trim of ParseSitemap as an option: `some` of the substring when the
string has a character outside the whitespace set, `none` when both
position lookups return npos and the code takes its no-trim path. -/
def trimXml (s : Str) : Option Str :=
  if (trimBody s).isEmpty then none else some (trimBody s)

/-- The whitespace set of `std::isspace` in the C locale, used by the
robots.txt `Trim`. -/
def isSpaceC (c : Char) : Bool :=
  c = ' ' || c = '\t' || c = '\n' || c = Char.ofNat 11 || c = Char.ofNat 12 || c = '\r'

/-- `Trim` from robots_parser.cpp: drop `isspace` characters from both ends. -/
def trimRobots (s : Str) : Str :=
  (s.dropWhile isSpaceC).reverse.dropWhile isSpaceC |>.reverse

/-- `StartsWithCaseInsensitive` from robots_parser.cpp. -/
def startsWithCI (s p : Str) : Bool :=
  if s.length < p.length then false
  else lowerStr (s.take p.length) = lowerStr p

/-- The directive matched by the robots parser ("sitemap:"). -/
def sitemapDirective : Str := "sitemap:".toList

/-- `RobotsParser::ParseSitemapUrls`: split into lines (`std::getline` on
newline), trim each, skip empty lines and comment lines, match the
"sitemap:" directive case-insensitively, keep the trimmed remainder when
non-empty. -/
def robotsParseSitemapUrls (content : Str) : List Str :=
  (content.splitOn '\n').foldl
    (fun acc line =>
      let line := trimRobots line
      if line.isEmpty then acc
      else if line.headD ' ' = '#' then acc
      else if startsWithCI line sitemapDirective then
        let url := trimRobots (line.drop sitemapDirective.length)
        if url.isEmpty then acc else acc ++ [url]
      else acc)
    []

/-- One row of a sitemap, as in xml_parser.hpp: all fields text, empty
meaning absent for all but `url`. -/
structure SitemapEntry where
  url : Str := []
  lastmod : Str := []
  changefreq : Str := []
  priority : Str := []
  deriving Repr, DecidableEq

/-- The two document variants of `SitemapType`. -/
inductive SitemapType where
  | URLSET
  | SITEMAPINDEX
  deriving Repr, DecidableEq

/-- `SitemapParseResult` from xml_parser.hpp. -/
structure SitemapParseResult where
  type : SitemapType := .URLSET
  urls : List SitemapEntry := []
  sitemaps : List Str := []
  error : Str := []
  success : Bool := false
  deriving Repr, DecidableEq

/-- One `<url>` element as seen through the XPath queries of ParseSitemap:
the text content of its first loc/lastmod/changefreq/priority child in the
namespace under which the element was matched (`GetXPathText` returns the
empty string when the child is missing). -/
structure UrlNode where
  loc : Str := []
  lastmod : Str := []
  changefreq : Str := []
  priority : Str := []
  deriving Repr, DecidableEq

/-- A parsed XML document as seen through the XPath layer used by
`XmlParser::ParseSitemap`: the root element's local name, the nodes matched
by `//sm:url` and `//sm2:url`, and the text contents matched by
`//sm:sitemap/sm:loc` and `//sm2:sitemap/sm2:loc` (sm is the sitemaps.org
namespace, sm2 the legacy Google one), each in document order. -/
structure XmlDoc where
  root : Str := []
  urls_sm : List UrlNode := []
  urls_sm2 : List UrlNode := []
  sitemaps_sm : List Str := []
  sitemaps_sm2 : List Str := []
  deriving Repr, DecidableEq

/-- Processing of one `<url>` node in the URLSET branch of ParseSitemap:
query loc/lastmod/changefreq/priority, trim the url when it has a character
outside " \t\n\r" (when both npos-checks fail the url is left untouched),
and keep the entry only when the url is non-empty. -/
def processUrlNode (n : UrlNode) : Option SitemapEntry :=
  let u := match trimXml n.loc with
    | some t => t
    | none => n.loc
  if u.isEmpty then none
  else some { url := u, lastmod := n.lastmod, changefreq := n.changefreq,
              priority := n.priority }

/-- Processing of the `<url>` nodes of one namespace in document order. -/
def urlsetPass (ns : List UrlNode) : List SitemapEntry :=
  ns.filterMap processUrlNode

/-- Processing of the `<sitemap><loc>` texts of one namespace in the
SITEMAPINDEX branch: each loc is trimmed and pushed only when it has a
character outside " \t\n\r" (the push sits inside the npos-checks). -/
def indexPass (ls : List Str) : List Str :=
  ls.filterMap trimXml

/-- Root-name literal for index documents. -/
def rootIndex : Str := "sitemapindex".toList

/-- Root-name literal for urlset documents. -/
def rootUrlset : Str := "urlset".toList

/-- Error literal of the XML-parse failure path. -/
def errParseXml : Str := "Failed to parse XML".toList

/-- Error literal of the unknown-root path. -/
def errUnknownRoot : Str := "Unknown root element: ".toList

/-- `XmlParser::ParseSitemap` on an already-built document: dispatch on the
root name; in each branch run the sitemaps.org namespace pass first and the
legacy pass only when the result list is still empty afterwards (the loop
breaks as soon as the result vector is non-empty). -/
def parseSitemapDoc (d : XmlDoc) : SitemapParseResult :=
  if d.root = rootIndex then
    let s1 := indexPass d.sitemaps_sm
    let s := if s1.isEmpty then indexPass d.sitemaps_sm2 else s1
    { type := .SITEMAPINDEX, sitemaps := s, success := true }
  else if d.root = rootUrlset then
    let u1 := urlsetPass d.urls_sm
    let u := if u1.isEmpty then urlsetPass d.urls_sm2 else u1
    { type := .URLSET, urls := u, success := true }
  else
    { error := errUnknownRoot ++ d.root, success := false }

/-- `XmlParser::ParseSitemap` from bytes: the libxml2 construction of the
document tree is an external capability `readXml` (`none` models
`XMLDocRAII::IsValid()` returning false). -/
def parseSitemapBytes (readXml : Str → Option XmlDoc) (content : Str) :
    SitemapParseResult :=
  match readXml content with
  | none => { error := errParseXml, success := false }
  | some d => parseSitemapDoc d

/-- The ".gz" literal of IsGzipped. -/
def dotGz : Str := ".gz".toList

/-- The "gzip" literal of IsGzipped. -/
def gzipLit : Str := "gzip".toList

/-- `XmlParser::IsGzipped`: the URL, lower-cased, ends in ".gz" (guarded by
`url.length() >= 3`, compared via `substr(length-3)`), or the content type
contains "gzip" (a plain, case-sensitive `find`). The payload is not an
argument: the code never inspects it here. -/
def IsGzipped (url content_type : Str) : Bool :=
  (if url.length ≥ 3 then
    (lowerStr url).drop ((lowerStr url).length - 3) = dotGz
  else false)
  || strContains content_type gzipLit

/-- Gzip magic check of DecompressGzip: at least two bytes, the first 0x1f
and the second 0x8b. -/
def hasGzipMagic (s : Str) : Bool :=
  match s with
  | b0 :: b1 :: _ => b0 = Char.ofNat 0x1f && b1 = Char.ofNat 0x8b
  | _ => false

/-- Return codes of zlib's `inflate` as distinguished by the loop in
`XmlParser::DecompressGzip`: Z_OK, Z_STREAM_END and Z_BUF_ERROR are
tolerated, anything else aborts. -/
inductive ZRet where
  | ok
  | streamEnd
  | bufError
  | fatal
  deriving Repr, DecidableEq

/-- One call to the external `inflate` capability: its return code and the
bytes it wrote into the 32 KiB output buffer. -/
structure InflateStep where
  ret : ZRet
  out : Str
  deriving Repr

/-- The external inflate capability as seen by DecompressGzip: whether
`inflateInit2` succeeds, and the outcome of the k-th `inflate` call on the
given input stream. -/
structure InflateCap where
  initOk : Bool
  step : Nat → InflateStep

/-- The do/while loop of DecompressGzip, with explicit fuel: each round
calls `inflate`; a return code other than Z_OK / Z_STREAM_END / Z_BUF_ERROR
makes the function return the empty string; otherwise the buffer contents
are appended and the loop repeats until the code is Z_STREAM_END. `none`
means the fuel ran out with the loop still running. -/
def inflateLoop (cap : InflateCap) : Nat → Nat → Str → Option Str
  | 0, _, _ => none
  | fuel + 1, k, acc =>
    let s := cap.step k
    match s.ret with
    | .fatal => some []
    | .streamEnd => some (acc ++ s.out)
    | .ok => inflateLoop cap fuel (k + 1) (acc ++ s.out)
    | .bufError => inflateLoop cap fuel (k + 1) (acc ++ s.out)

/-- `XmlParser::DecompressGzip`, fuel-indexed: without the gzip magic the
input is returned unchanged; a failing `inflateInit2` yields the empty
string; otherwise the inflate loop runs. `none` means the loop had not
terminated within `fuel` rounds. -/
def decompressGzip (cap : InflateCap) (fuel : Nat) (compressed : Str) :
    Option Str :=
  if hasGzipMagic compressed then
    if cap.initOk then inflateLoop cap fuel 0 []
    else some []
  else
    some compressed

/-- `HttpResponse` from http_client.hpp. -/
structure HttpResponse where
  status_code : Int := 0
  body : Str := []
  content_type : Str := []
  retry_after : Str := []
  error : Str := []
  success : Bool := false
  deriving Repr, DecidableEq

/-- The external capabilities one invocation runs against. `fetch` stands
for `HttpClient::Fetch` (transport plus retry policy — the retry config and
user agent are fixed for the whole invocation, so they are absorbed into
the oracle); `inflateResult` stands for the zlib inflation of a
magic-prefixed payload as performed by DecompressGzip's loop, the empty
string meaning failure; `readXml` and `findHtmlLinks` stand for the libxml2
document construction and the HTML `<link rel="sitemap">` scan. -/
structure Env where
  fetch : Str → HttpResponse
  inflateResult : Str → Str
  readXml : Str → Option XmlDoc
  findHtmlLinks : Str → List Str

/-- `XmlParser::DecompressGzip` as used inside FetchSitemap, with the
inflate part delegated to the environment: without the gzip magic the input
comes back unchanged. -/
def decompressGzipE (env : Env) (s : Str) : Str :=
  if hasGzipMagic s then env.inflateResult s else s

/-- `SitemapBindData` from sitemap_function.cpp (retry config and user
agent are absorbed into the fetch oracle). -/
structure SitemapBindData where
  base_urls : List Str := []
  follow_robots : Bool := true
  max_depth : Int := 3
  ignore_errors : Bool := false
  deriving Repr

/-- The process-wide `SitemapCache` map, as an association list so that a
stored entry is distinguishable from an absent one. -/
abbrev Cache := List (Str × List Str)

/-- `SitemapCache::Get`: the stored list, or the empty list on a miss. -/
def cacheGet (c : Cache) (k : Str) : List Str :=
  match c.find? (fun kv => kv.1 = k) with
  | some kv => kv.2
  | none => []

/-- `SitemapCache::Set`: overwrite or insert. -/
def cacheSet (c : Cache) (k : Str) (v : List Str) : Cache :=
  if c.any (fun kv => kv.1 = k) then
    c.map (fun kv => if kv.1 = k then (k, v) else kv)
  else
    c ++ [(k, v)]

/-- `SitemapGlobalState`: the collector of one invocation. `fetch_log`
is ghost instrumentation recording the URL of every `HttpClient::Fetch`
call issued by FetchSitemap, so that "returns without fetching" is
expressible; it mirrors no source field and no source logic reads it. -/
structure GState where
  entries : List SitemapEntry := []
  errors : List Str := []
  fetch_log : List Str := []
  deriving Repr, DecidableEq

/-- `BuildUrl`: strip trailing slashes from the base, then join with
exactly one slash. -/
def BuildUrl (base_url path : Str) : Str :=
  let base := (base_url.reverse.dropWhile (fun c => c = '/')).reverse
  match path with
  | [] => base ++ ['/']
  | c :: _ => if c = '/' then base ++ path else base ++ ['/'] ++ path

/-- The "sitemap" literal of IsSitemapUrl. -/
def sitemapLit : Str := "sitemap".toList

/-- The ".xml" literal of IsSitemapUrl. -/
def dotXml : Str := ".xml".toList

/-- The ".xml.gz" literal of IsSitemapUrl. -/
def dotXmlGz : Str := ".xml.gz".toList

/-- `IsSitemapUrl`: the lower-cased URL contains "sitemap" and contains
".xml" or ".xml.gz" (both via `std::string::find`). -/
def IsSitemapUrl (url : Str) : Bool :=
  strContains (lowerStr url) sitemapLit &&
  (strContains (lowerStr url) dotXml || strContains (lowerStr url) dotXmlGz)

/-- Error-message literal: failed fetch. -/
def errFetch (url e : Str) : Str :=
  "Failed to fetch ".toList ++ url ++ ": ".toList ++ e

/-- Error-message literal: failed decompression. -/
def errDecompress (url : Str) : Str :=
  "Failed to decompress gzipped sitemap: ".toList ++ url

/-- Error-message literal: failed parse. -/
def errParse (url e : Str) : Str :=
  "Failed to parse sitemap ".toList ++ url ++ ": ".toList ++ e

/-- The tail of `FetchSitemap` after the decompression step: parse the
content and either record the parse error, append the urlset entries to the
collector, or hand the child URLs of a sitemapindex to the recursion
(returned as data so the recursive call sits in the caller). -/
def afterContent (env : Env) (st : GState) (url content : Str) :
    GState × List Str :=
  let res := parseSitemapBytes env.readXml content
  if !res.success then
    ({ st with errors := st.errors ++ [errParse url res.error] }, [])
  else
    match res.type with
    | .URLSET => ({ st with entries := st.entries ++ res.urls }, [])
    | .SITEMAPINDEX => (st, res.sitemaps)

mutual

/-- `FetchSitemap` from sitemap_function.cpp: stop silently beyond the
depth bound; fetch; record fetch failure; decompress when gzip-indicated,
recording an empty result as a failure; parse; append urlset entries or
recurse into the children of a sitemapindex at depth+1, in document
order. -/
def FetchSitemap (env : Env) (bind : SitemapBindData) (st : GState)
    (url : Str) (depth : Int) : GState :=
  if h : depth > bind.max_depth then st
  else
    let st := { st with fetch_log := st.fetch_log ++ [url] }
    let r := env.fetch url
    if !r.success then
      { st with errors := st.errors ++ [errFetch url r.error] }
    else if IsGzipped url r.content_type then
      let content := decompressGzipE env r.body
      if content.isEmpty then
        { st with errors := st.errors ++ [errDecompress url] }
      else
        let (st', children) := afterContent env st url content
        fetchChildren env bind st' children (depth + 1)
    else
      let (st', children) := afterContent env st url r.body
      fetchChildren env bind st' children (depth + 1)
termination_by ((bind.max_depth + 1 - depth).toNat, 0)
decreasing_by
  all_goals first
    | (apply Prod.Lex.left; omega)
    | (apply Prod.Lex.right; simp only [List.length_cons]; omega)

/-- The child loop of FetchSitemap: recursive calls in list order. -/
def fetchChildren (env : Env) (bind : SitemapBindData) (st : GState)
    (ls : List Str) (depth : Int) : GState :=
  match ls with
  | [] => st
  | u :: rest => fetchChildren env bind (FetchSitemap env bind st u depth) rest depth
termination_by ((bind.max_depth + 1 - depth).toNat, ls.length + 1)
decreasing_by
  all_goals first
    | (apply Prod.Lex.left; omega)
    | (apply Prod.Lex.right; simp only [List.length_cons]; omega)

end

/-- Path literal "/robots.txt". -/
def robotsPath : Str := "/robots.txt".toList

/-- Path literal "/sitemap.xml". -/
def sitemapXmlPath : Str := "/sitemap.xml".toList

/-- Path literal "/sitemap_index.xml". -/
def sitemapIndexPath : Str := "/sitemap_index.xml".toList

/-- Relative-href resolution of the HTML strategy: hrefs without "://" are
made absolute against the base URL (leading slash concatenated directly,
anything else joined with one slash; `href[0]` on an empty href reads the
terminating NUL of the std::string, which is not a slash). -/
def resolveHtmlHref (base_url href : Str) : Str :=
  if strContains href schemeSep then href
  else
    match href with
    | [] => base_url ++ ['/'] ++ []
    | c :: _ => if c = '/' then base_url ++ href else base_url ++ ['/'] ++ href

/-- The strategy chain of `DiscoverSitemapUrls` after the direct-sitemap
shortcut (source lines 224-288): cache lookup, robots.txt, /sitemap.xml,
/sitemap_index.xml, homepage HTML; the result triple is the updated cache,
the candidate list, and the ghost log of fetched URLs. -/
def discoverRest (env : Env) (base_url : Str) (bind : SitemapBindData)
    (c : Cache) : Cache × List Str × List Str :=
  let cached := cacheGet c base_url
  if !cached.isEmpty then (c, cached, [])
  else
    let robotsStep : Cache × List Str × List Str ⊕ List Str :=
      if bind.follow_robots then
        let robots_url := BuildUrl base_url robotsPath
        let r := env.fetch robots_url
        if r.success then
          let urls := robotsParseSitemapUrls r.body
          if !urls.isEmpty then
            Sum.inl (cacheSet c base_url urls, urls, [robots_url])
          else Sum.inr [robots_url]
        else Sum.inr [robots_url]
      else Sum.inr []
    match robotsStep with
    | Sum.inl done => done
    | Sum.inr log₁ =>
      let sitemap_xml_url := BuildUrl base_url sitemapXmlPath
      let r₂ := env.fetch sitemap_xml_url
      let log₂ := log₁ ++ [sitemap_xml_url]
      if r₂.success then
        (cacheSet c base_url [sitemap_xml_url], [sitemap_xml_url], log₂)
      else
        let sitemap_index_url := BuildUrl base_url sitemapIndexPath
        let r₃ := env.fetch sitemap_index_url
        let log₃ := log₂ ++ [sitemap_index_url]
        if r₃.success then
          (cacheSet c base_url [sitemap_index_url], [sitemap_index_url], log₃)
        else
          let r₄ := env.fetch base_url
          let log₄ := log₃ ++ [base_url]
          if r₄.success then
            let html_sitemaps := env.findHtmlLinks r₄.body
            if !html_sitemaps.isEmpty then
              let urls := html_sitemaps.map (resolveHtmlHref base_url)
              (cacheSet c base_url urls, urls, log₄)
            else (c, [], log₄)
          else (c, [], log₄)

/-- `DiscoverSitemapUrls`: a base URL that itself looks like a sitemap file
is returned as the single candidate before the cache is consulted or any
fetch is issued; everything else goes through `discoverRest`. -/
def DiscoverSitemapUrls (env : Env) (base_url : Str) (bind : SitemapBindData)
    (c : Cache) : Cache × List Str × List Str :=
  if IsSitemapUrl base_url then (c, [base_url], [])
  else discoverRest env base_url bind c

/-- Error-message literal of the zero-entry hard failure. -/
def errNoSitemap (base_url : Str) : Str :=
  "Failed to find sitemap for ".toList ++ base_url

/-- The loop body of `SitemapInitGlobal` over the remaining base URLs:
discover, fetch every candidate at depth 0, then convert a zero-entry base
URL into a hard failure (`IOException`, modelled as `Except.error` carrying
the message and the collector as it stood at the throw) unless
ignore_errors is set. The error message cites the base URL and appends the
last recorded error when this base URL's processing recorded any. -/
def initGlobalAux (env : Env) (bind : SitemapBindData) :
    Cache × GState → List Str → Except (Str × GState) (Cache × GState)
  | cs, [] => .ok cs
  | (c, st), base_url :: rest =>
    let (c', sitemap_urls, dlog) := DiscoverSitemapUrls env base_url bind c
    let st := { st with fetch_log := st.fetch_log ++ dlog }
    let initial_error_count := st.errors.length
    let initial_entry_count := st.entries.length
    let st' := sitemap_urls.foldl (fun s u => FetchSitemap env bind s u 0) st
    let found_urls := decide (st'.entries.length > initial_entry_count)
    let had_errors := decide (st'.errors.length > initial_error_count)
    if !found_urls && !bind.ignore_errors then
      let msg := if had_errors && !st'.errors.isEmpty then
          errNoSitemap base_url ++ ": ".toList ++ st'.errors.getLastD []
        else errNoSitemap base_url
      .error (msg, st')
    else initGlobalAux env bind (c', st') rest

/-- `SitemapInitGlobal`: run the loop from the empty collector, starting
from whatever the process-wide cache currently holds. -/
def SitemapInitGlobal (env : Env) (bind : SitemapBindData) (c : Cache) :
    Except (Str × GState) (Cache × GState) :=
  initGlobalAux env bind (c, {}) bind.base_urls

/-- Protocol defaulting shared by SitemapBind and the bruteforce function:
prepend "https://" when the URL does not contain "://". -/
def normalizeProtocol (url : Str) : Str :=
  if strContains url schemeSep then url else httpsScheme ++ url

/-- The first positional argument of sitemap_urls(), after the engine's
value layer: a single VARCHAR, a LIST of VARCHAR, or anything else. -/
inductive BindInput where
  | single (url : Str)
  | list (urls : List Str)
  | other

/-- Error literal of the empty-list bind failure. -/
def errNeedUrl : Str := "sitemap_urls() requires at least one URL".toList

/-- Error literal of the wrong-argument-type bind failure. -/
def errBadArg : Str :=
  "sitemap_urls() first argument must be VARCHAR or LIST(VARCHAR)".toList

/-- The base-URL handling of `SitemapBind`: protocol-default a single URL,
protocol-default every element of a list independently, reject an empty
list and non-string argument types (`InvalidInputException`, modelled as
`Except.error`). -/
def bindBaseUrls : BindInput → Except Str (List Str)
  | .single url => .ok [normalizeProtocol url]
  | .list [] => .error errNeedUrl
  | .list (u :: us) => .ok ((u :: us).map normalizeProtocol)
  | .other => .error errBadArg

/-- Content-type literal "xml" of the bruteforce acceptance test. -/
def xmlLit : Str := "xml".toList

/-- Content-type literal "plain" of the bruteforce acceptance test. -/
def plainLit : Str := "plain".toList

/-- The acceptance test of the bruteforce probe: a successful response with
status in [200,300) whose lower-cased content type contains "xml", "gzip"
or "plain". -/
def bruteAccept (r : HttpResponse) : Bool :=
  r.success && 200 ≤ r.status_code && r.status_code < 300 &&
  (strContains (lowerStr r.content_type) xmlLit ||
   strContains (lowerStr r.content_type) gzipLit ||
   strContains (lowerStr r.content_type) plainLit)

/-- The inner filetype loop of `BruteforceFindSitemapFunction` for one
filename: first accepted candidate, or none. -/
def probeTypes (env : Env) (base_url fn : Str) : List Str → Option Str
  | [] => none
  | ft :: rest =>
    let url := BuildUrl base_url (fn ++ ['.'] ++ ft)
    if bruteAccept (env.fetch url) then some url
    else probeTypes env base_url fn rest

/-- The outer filename loop of `BruteforceFindSitemapFunction`. -/
def probeNames (env : Env) (base_url : Str) (filetypes : List Str) :
    List Str → Option Str
  | [] => none
  | fn :: rest =>
    match probeTypes env base_url fn filetypes with
    | some url => some url
    | none => probeNames env base_url filetypes rest

/-- One row of `BruteforceFindSitemapFunction`: protocol-default the base
URL, then scan filenames (outer) by filetypes (inner), short-circuiting on
the first accepted candidate; `none` models the NULL result (the code never
throws here). The filename and filetype enumerations
(`BruteforceFinder::GetFilenames` / `GetFiletypes`, defined outside the
provided sources) are parameters. -/
def bruteforceRow (env : Env) (filenames filetypes : List Str)
    (base_url_raw : Str) : Option Str :=
  probeNames env (normalizeProtocol base_url_raw) filetypes filenames

/-! Helper lemmas shared by several claims. -/

/-- A string starting with an appended pair starts with the first part. -/
theorem strStartsWith_append_left (s p q : Str)
    (h : strStartsWith s (p ++ q) = true) : strStartsWith s p = true := by
  induction p generalizing s with
  | nil => simp [strStartsWith]
  | cons c cs ih =>
    cases s with
    | nil => simp [strStartsWith] at h
    | cons d ds =>
      simp only [List.cons_append, strStartsWith, Bool.and_eq_true] at h ⊢
      exact ⟨h.1, ih ds h.2⟩

/-- A string containing an appended pair contains the first part. -/
theorem strContains_append_left (hst p q : Str)
    (h : strContains hst (p ++ q) = true) : strContains hst p = true := by
  induction hst with
  | nil =>
    simp [strContains, List.isEmpty_iff] at h ⊢
    exact h.1
  | cons c cs ih =>
    simp only [strContains, Bool.or_eq_true] at h ⊢
    rcases h with h | h
    · exact Or.inl (strStartsWith_append_left _ _ _ h)
    · exact Or.inr (ih h)

/-- Lower-casing preserves length. -/
theorem lowerStr_length (s : Str) : (lowerStr s).length = s.length :=
  List.length_map _ _

/-! Claim C6. -/

/-- Content-type literal with upper-case letters, for the C6 counterexample. -/
def ctUpperGzip : Str := "GZIP".toList

/-- A short URL that does not end in ".gz". -/
def urlPlainA : Str := "a".toList

/-- C6 counterexample: the claim says IsGzipped is true whenever the
content type contains "gzip" case-insensitively, but the code's
content-type check is a plain case-sensitive `find`: on content type
"GZIP" (which contains "gzip" case-insensitively) IsGzipped is false. -/
theorem c6_counterexample :
    IsGzipped urlPlainA ctUpperGzip = false ∧
    strContains (lowerStr ctUpperGzip) gzipLit = true ∧
    strEndsWith (lowerStr urlPlainA) dotGz = false := by decide

/-- C6 amended: IsGzipped(url, contentType) is true iff the url,
lower-cased, ends in ".gz", or the content-type contains the substring
"gzip" compared case-SENSITIVELY; the payload bytes are never inspected
(the function does not receive them). -/
theorem c6_amended (url ct : Str) :
    IsGzipped url ct =
      (strEndsWith (lowerStr url) dotGz || strContains ct gzipLit) := by
  unfold IsGzipped strEndsWith
  have hlen : (lowerStr url).length = url.length := lowerStr_length url
  have h3 : dotGz.length = 3 := by decide
  by_cases h : url.length ≥ 3
  · have h2 : ¬ url.length < 3 := by omega
    have h4 : ¬ (lowerStr url).length < dotGz.length := by omega
    simp [h, h2, h4, hlen, h3]
  · have h2 : url.length < 3 := by omega
    have h4 : (lowerStr url).length < dotGz.length := by omega
    simp [h, h2, h4]

/-! Claim C10. -/

/-- C10: both registered forms of sitemap_urls() prepend "https://" at bind
time to every input URL lacking "://" and leave URLs containing "://"
untouched, element-wise for the list form. -/
theorem c10_protocol_defaulting :
    (∀ u : Str, strContains u schemeSep = true → normalizeProtocol u = u) ∧
    (∀ u : Str, strContains u schemeSep = false →
      normalizeProtocol u = httpsScheme ++ u) ∧
    (∀ u : Str, bindBaseUrls (.single u) = .ok [normalizeProtocol u]) ∧
    (∀ us : List Str, us ≠ [] →
      bindBaseUrls (.list us) = .ok (us.map normalizeProtocol)) := by
  refine ⟨?_, ?_, ?_, ?_⟩
  · intro u h; simp [normalizeProtocol, h]
  · intro u h; simp [normalizeProtocol, h]
  · intro u; rfl
  · intro us h
    cases us with
    | nil => exact absurd rfl h
    | cons u rest => rfl

/-- A URL that already carries a protocol. -/
def urlWithScheme : Str := "http://example.com".toList

/-- A URL without a protocol. -/
def urlNoScheme : Str := "example.com".toList

/-- C10 witness at concrete inputs. -/
theorem c10_witness :
    strContains urlWithScheme schemeSep = true ∧
    normalizeProtocol urlWithScheme = urlWithScheme ∧
    strContains urlNoScheme schemeSep = false ∧
    normalizeProtocol urlNoScheme = httpsScheme ++ urlNoScheme ∧
    bindBaseUrls (.list [urlWithScheme, urlNoScheme]) =
      .ok [urlWithScheme, httpsScheme ++ urlNoScheme] := by
  refine ⟨by decide, c10_protocol_defaulting.1 _ (by decide), by decide,
    c10_protocol_defaulting.2.1 _ (by decide), ?_⟩
  have h := c10_protocol_defaulting.2.2.2 [urlWithScheme, urlNoScheme] (by decide)
  rw [h]
  have h1 := c10_protocol_defaulting.1 urlWithScheme (by decide)
  have h2 := c10_protocol_defaulting.2.1 urlNoScheme (by decide)
  simp [h1, h2]

/-! Claim C8. -/

/-- The candidate enumeration of the bruteforce probe, filenames outer and
filetypes inner, in loop order. -/
def bruteCandidates (base : Str) (filenames filetypes : List Str) : List Str :=
  filenames.flatMap (fun fn => filetypes.map (fun ft => BuildUrl base (fn ++ ['.'] ++ ft)))

/-- The inner loop equals first-match search over this filename's
candidates. -/
theorem probeTypes_eq_find (env : Env) (base fn : Str) (fts : List Str) :
    probeTypes env base fn fts =
      (fts.map (fun ft => BuildUrl base (fn ++ ['.'] ++ ft))).find?
        (fun u => bruteAccept (env.fetch u)) := by
  induction fts with
  | nil => rfl
  | cons ft rest ih =>
    simp only [probeTypes, List.map_cons, List.find?_cons, List.singleton_append]
    by_cases h : bruteAccept (env.fetch (BuildUrl base (fn ++ '.' :: ft)))
    · simp [h]
    · simp only [Bool.not_eq_true] at h
      simp [h, ih]

/-- C8: a bruteforce row is exactly the first candidate, in filename-outer
filetype-inner order, whose response is successful with status in [200,300)
and whose lower-cased content type contains "xml", "gzip" or "plain"; when
no candidate in the full space is accepted the result is `none` (the NULL
result — the function has no throwing path). -/
theorem c8_first_match (env : Env) (filenames filetypes : List Str) (raw : Str) :
    bruteforceRow env filenames filetypes raw =
      (bruteCandidates (normalizeProtocol raw) filenames filetypes).find?
        (fun u => bruteAccept (env.fetch u)) := by
  unfold bruteforceRow bruteCandidates
  induction filenames with
  | nil => rfl
  | cons fn rest ih =>
    rw [List.flatMap_cons, List.find?_append, ← ih]
    simp only [probeNames, probeTypes_eq_find]
    cases h : (filetypes.map
        (fun ft => BuildUrl (normalizeProtocol raw) (fn ++ ['.'] ++ ft))).find?
        (fun u => bruteAccept (env.fetch u)) with
    | none => simp
    | some u => simp

/-! Claim C4. -/

/-- The claim's version of the direct-sitemap condition, written from the
spec's words for comparison: contains "sitemap" case-insensitively AND ends
in ".xml" or ".xml.gz". -/
def specIsSitemapUrl (url : Str) : Bool :=
  strContains (lowerStr url) sitemapLit &&
  (strEndsWith (lowerStr url) dotXml || strEndsWith (lowerStr url) dotXmlGz)

/-- An environment whose every capability fails or returns nothing. -/
def env0 : Env :=
  { fetch := fun _ => {}, inflateResult := fun _ => [],
    readXml := fun _ => none, findHtmlLinks := fun _ => [] }

/-- A sitemap URL with a query string: it contains ".xml" but does not end
in ".xml" or ".xml.gz". -/
def sitemapQueryUrl : Str := "https://example.com/sitemap.xml?page=2".toList

/-- C4 counterexample: the code's shortcut tests `find(".xml") != npos`
(containment), not an ends-with test as the claim states, so a sitemap URL
carrying a query string is returned immediately as the single candidate
even though it ends in neither ".xml" nor ".xml.gz". -/
theorem c4_counterexample :
    specIsSitemapUrl sitemapQueryUrl = false ∧
    IsSitemapUrl sitemapQueryUrl = true ∧
    DiscoverSitemapUrls env0 sitemapQueryUrl {} [] =
      ([], [sitemapQueryUrl], []) := by decide

/-- C4 amended: DiscoverSitemapUrls returns [baseUrl] immediately — cache
untouched, nothing fetched — exactly when the lower-cased baseUrl contains
"sitemap" and contains ".xml" (the ".xml.gz" disjunct of the code is
subsumed by the ".xml" containment check); otherwise the call proceeds to
the cache check and the strategy chain. -/
theorem c4_amended (env : Env) (base_url : Str) (bind : SitemapBindData)
    (c : Cache) :
    (IsSitemapUrl base_url =
      (strContains (lowerStr base_url) sitemapLit &&
       strContains (lowerStr base_url) dotXml)) ∧
    (IsSitemapUrl base_url = true →
      DiscoverSitemapUrls env base_url bind c = (c, [base_url], [])) ∧
    (IsSitemapUrl base_url = false →
      DiscoverSitemapUrls env base_url bind c =
        discoverRest env base_url bind c) := by
  refine ⟨?_, ?_, ?_⟩
  · unfold IsSitemapUrl
    cases hs : strContains (lowerStr base_url) sitemapLit
    · simp
    · simp only [Bool.true_and]
      cases hx : strContains (lowerStr base_url) dotXml
      · cases hg : strContains (lowerStr base_url) dotXmlGz
        · simp
        · have : dotXmlGz = dotXml ++ ".gz".toList := by decide
          rw [this] at hg
          have := strContains_append_left _ _ _ hg
          rw [this] at hx
          exact absurd hx (by decide)
      · simp
  · intro h; simp [DiscoverSitemapUrls, h]
  · intro h; simp [DiscoverSitemapUrls, h]

/-- A base URL satisfying the code's direct-sitemap condition. -/
def directSitemapUrl : Str := "https://example.com/sitemap.xml".toList

/-- C4 witness at concrete inputs: the direct URL short-circuits with the
cache and fetch log untouched; a plain homepage URL does not. -/
theorem c4_witness :
    IsSitemapUrl directSitemapUrl = true ∧
    DiscoverSitemapUrls env0 directSitemapUrl {} [] =
      ([], [directSitemapUrl], []) ∧
    IsSitemapUrl urlNoScheme = false ∧
    DiscoverSitemapUrls env0 urlNoScheme {} [] =
      discoverRest env0 urlNoScheme {} [] :=
  ⟨by decide, (c4_amended env0 directSitemapUrl {} []).2.1 (by decide),
   by decide, (c4_amended env0 urlNoScheme {} []).2.2 (by decide)⟩

/-! Trim lemmas for C1. -/

/-- The head surviving `dropWhile p` falsifies `p`. -/
theorem head?_dropWhile_false (p : Char → Bool) (l : Str) :
    ∀ x, (l.dropWhile p).head? = some x → p x = false := by
  induction l with
  | nil => intro x hx; simp [List.dropWhile] at hx
  | cons c cs ih =>
    intro x hx
    by_cases hc : p c
    · exact ih x (by simpa [List.dropWhile, hc] using hx)
    · simp only [List.dropWhile, hc] at hx
      simp only [Bool.not_eq_true] at hc
      simp only [List.head?_cons, Option.some_inj] at hx
      subst hx; exact hc

/-- Helper: consing onto a non-empty list keeps its last element. -/
theorem getLast?_cons_ne_nil (c : Char) (cs : Str) (h : cs ≠ []) :
    (c :: cs).getLast? = cs.getLast? := by
  cases cs with
  | nil => exact absurd rfl h
  | cons d ds => exact List.getLast?_cons_cons

/-- A non-empty `dropWhile` keeps the last element of the original list. -/
theorem getLast?_dropWhile (p : Char → Bool) (l : Str)
    (h : l.dropWhile p ≠ []) : (l.dropWhile p).getLast? = l.getLast? := by
  induction l with
  | nil => simp [List.dropWhile] at h
  | cons c cs ih =>
    by_cases hc : p c
    · have hrw : (c :: cs).dropWhile p = cs.dropWhile p := by
        simp [List.dropWhile, hc]
      rw [hrw] at h ⊢
      have hcs : cs ≠ [] := by
        intro hnil; rw [hnil] at h; simp [List.dropWhile] at h
      rw [ih h, getLast?_cons_ne_nil c cs hcs]
    · simp [List.dropWhile, hc]

/-- When both npos-checks of the trim fail, every character of the string
is in the whitespace set. -/
theorem trimXml_none (s : Str) (h : trimXml s = none) :
    ∀ c ∈ s, isXmlWs c = true := by
  unfold trimXml at h
  split at h
  case isTrue ht =>
    have ht' : trimBody s = [] := List.isEmpty_iff.mp ht
    have h2 : (s.dropWhile isXmlWs).reverse.dropWhile isXmlWs = [] := by
      have := congrArg List.reverse ht'
      simpa [trimBody] using this
    have h3 : ∀ x ∈ (s.dropWhile isXmlWs).reverse, isXmlWs x = true :=
      List.dropWhile_eq_nil_iff.mp h2
    have h4 : s.dropWhile isXmlWs = [] := by
      cases h1 : s.dropWhile isXmlWs with
      | nil => rfl
      | cons c cs =>
        have hc : isXmlWs c = false := by
          apply head?_dropWhile_false isXmlWs s
          rw [h1]; rfl
        have hmem : c ∈ (s.dropWhile isXmlWs).reverse := by
          rw [h1]; simp
        rw [h3 c hmem] at hc
        cases hc
    exact List.dropWhile_eq_nil_iff.mp h4
  case isFalse => cases h

/-- When the trim succeeds the result is non-empty and both its first and
its last character are outside the whitespace set. -/
theorem trimXml_some (s t : Str) (h : trimXml s = some t) :
    t ≠ [] ∧ (∀ c, t.head? = some c → isXmlWs c = false) ∧
    (∀ c, t.getLast? = some c → isXmlWs c = false) := by
  unfold trimXml at h
  split at h
  case isTrue => cases h
  case isFalse hne =>
    have hht : t = ((s.dropWhile isXmlWs).reverse.dropWhile isXmlWs).reverse :=
      (Option.some_inj.mp h).symm
    have htne : t ≠ [] := by
      intro hnil
      apply hne
      apply List.isEmpty_iff.mpr
      show trimBody s = []
      rw [show trimBody s = t from hht.symm, hnil]
    have h2ne : (s.dropWhile isXmlWs).reverse.dropWhile isXmlWs ≠ [] := by
      intro hnil
      apply htne
      rw [hht, hnil]; rfl
    refine ⟨htne, ?_, ?_⟩
    · intro c hc
      rw [hht, List.head?_reverse] at hc
      rw [getLast?_dropWhile _ _ h2ne, List.getLast?_reverse] at hc
      exact head?_dropWhile_false isXmlWs s c hc
    · intro c hc
      rw [hht, List.getLast?_reverse] at hc
      exact head?_dropWhile_false isXmlWs _ c hc

/-! Claim C1. -/

/-- Properties of one emitted urlset entry: its url is non-empty, and when
the url has a non-whitespace character at all it is trimmed (first and last
character outside the whitespace set). -/
theorem processUrlNode_spec (n : UrlNode) (e : SitemapEntry)
    (h : processUrlNode n = some e) :
    e.url ≠ [] ∧
    ((∃ c ∈ e.url, isXmlWs c = false) →
      (∀ c, e.url.head? = some c → isXmlWs c = false) ∧
      (∀ c, e.url.getLast? = some c → isXmlWs c = false)) := by
  unfold processUrlNode at h
  cases htrim : trimXml n.loc with
  | some t =>
    simp only [htrim] at h
    split at h
    case isTrue => cases h
    case isFalse hne =>
      have he : e.url = t := by
        have := Option.some_inj.mp h
        rw [← this]
      obtain ⟨ht1, ht2, ht3⟩ := trimXml_some n.loc t htrim
      rw [he]
      exact ⟨ht1, fun _ => ⟨ht2, ht3⟩⟩
  | none =>
    simp only [htrim] at h
    split at h
    case isTrue => cases h
    case isFalse hne =>
      have he : e.url = n.loc := by
        have := Option.some_inj.mp h
        rw [← this]
      have hws := trimXml_none n.loc htrim
      constructor
      · rw [he]; exact fun hnil => hne (by rw [hnil]; rfl)
      · rintro ⟨c, hc, hcws⟩
        rw [he] at hc
        rw [hws c hc] at hcws
        cases hcws

/-- Membership in the urlset output comes from one of the two namespace
passes. -/
theorem mem_parseSitemapDoc_urls (d : XmlDoc) (e : SitemapEntry)
    (he : e ∈ (parseSitemapDoc d).urls) :
    e ∈ urlsetPass d.urls_sm ∨ e ∈ urlsetPass d.urls_sm2 := by
  by_cases h1 : d.root = rootIndex
  · simp [parseSitemapDoc, h1] at he
  · by_cases h2 : d.root = rootUrlset
    · simp only [parseSitemapDoc, h1, if_false, h2, if_true] at he
      by_cases h3 : (urlsetPass d.urls_sm).isEmpty
      · simp only [h3, if_true] at he
        exact Or.inr he
      · simp only [h3, if_false] at he
        exact Or.inl he
    · simp [parseSitemapDoc, h1, h2] at he

/-- C1 amended: every entry emitted by ParseSitemap for a urlset document
has a non-empty url; a url containing at least one non-whitespace character
is trimmed on both ends, but a whitespace-only loc survives untrimmed (the
substr is guarded by the two npos checks, and the emptiness test sees the
original whitespace text), so an emitted url need not contain a
non-whitespace character. Dropping stays silent: no error is recorded. -/
theorem c1_amended (d : XmlDoc) (e : SitemapEntry)
    (he : e ∈ (parseSitemapDoc d).urls) :
    e.url ≠ [] ∧
    ((∃ c ∈ e.url, isXmlWs c = false) →
      (∀ c, e.url.head? = some c → isXmlWs c = false) ∧
      (∀ c, e.url.getLast? = some c → isXmlWs c = false)) := by
  rcases mem_parseSitemapDoc_urls d e he with hm | hm <;>
  · obtain ⟨n, _, hn⟩ := List.mem_filterMap.mp hm
    exact processUrlNode_spec n e hn

/-- A whitespace-only loc text. -/
def wsOnlyLoc : Str := [' ', ' ']

/-- A lastmod literal for the C1 example documents. -/
def lastmodLit : Str := "2024-01-01".toList

/-- A urlset document whose only entry has a whitespace-only loc. -/
def docWsLoc : XmlDoc :=
  { root := rootUrlset, urls_sm := [{ loc := wsOnlyLoc, lastmod := lastmodLit }] }

/-- C1 counterexample: the claim promises every emitted url contains a
non-whitespace character, but a whitespace-only loc is neither trimmed nor
dropped — it is emitted verbatim. -/
theorem c1_counterexample :
    (parseSitemapDoc docWsLoc).urls =
      [{ url := wsOnlyLoc, lastmod := lastmodLit }] ∧
    wsOnlyLoc ≠ [] ∧ wsOnlyLoc.all isXmlWs = true ∧
    (parseSitemapDoc docWsLoc).success = true := by decide

/-- A urlset document with one ordinary padded loc and one empty loc. -/
def docPadded : XmlDoc :=
  { root := rootUrlset,
    urls_sm := [{ loc := [' '] ++ "http://a".toList ++ ['\n'] }, { loc := [] }] }

/-- C1 witness: in `docPadded` the empty-loc entry is dropped and the
padded loc is trimmed; the amended theorem applies to the emitted entry. -/
theorem c1_witness :
    ({ url := "http://a".toList } : SitemapEntry) ∈ (parseSitemapDoc docPadded).urls ∧
    ({ url := "http://a".toList } : SitemapEntry).url ≠ [] :=
  ⟨by decide,
   (c1_amended docPadded { url := "http://a".toList } (by decide)).1⟩

/-! Claim C3. -/

/-- A urlset document whose canonical-namespace pass matches one node (with
an empty loc) while the legacy pass has a good entry. -/
def docNsFallthrough : XmlDoc :=
  { root := rootUrlset,
    urls_sm := [{ loc := [] }],
    urls_sm2 := [{ loc := "http://a".toList }] }

/-- C3 counterexample: the claim says the legacy namespace is queried only
when zero matches are found under the canonical one, but the code falls
through whenever zero ENTRIES survive the canonical pass. With one
canonical match whose loc is empty, the output comes from the legacy
namespace. -/
theorem c3_counterexample :
    docNsFallthrough.urls_sm.length = 1 ∧
    (parseSitemapDoc docNsFallthrough).urls =
      [{ url := "http://a".toList }] ∧
    urlsetPass docNsFallthrough.urls_sm = [] := by decide

/-- The two root names differ. -/
theorem urlset_ne_index : rootUrlset ≠ rootIndex := by decide

/-- C3 amended: for both document kinds the canonical sitemaps.org
namespace pass is used first, and the legacy Google namespace contributes
only when the canonical pass leaves zero surviving entries (no matches, or
every match dropped for an empty loc); the output is always exactly one of
the two passes, never a merge. -/
theorem c3_amended (d : XmlDoc) :
    (d.root = rootUrlset →
      (urlsetPass d.urls_sm ≠ [] →
        (parseSitemapDoc d).urls = urlsetPass d.urls_sm) ∧
      (urlsetPass d.urls_sm = [] →
        (parseSitemapDoc d).urls = urlsetPass d.urls_sm2)) ∧
    (d.root = rootIndex →
      (indexPass d.sitemaps_sm ≠ [] →
        (parseSitemapDoc d).sitemaps = indexPass d.sitemaps_sm) ∧
      (indexPass d.sitemaps_sm = [] →
        (parseSitemapDoc d).sitemaps = indexPass d.sitemaps_sm2)) := by
  constructor
  · intro hroot
    have hni : ¬ d.root = rootIndex := by
      rw [hroot]; decide
    constructor
    · intro hne
      have : ¬ (urlsetPass d.urls_sm).isEmpty := by
        simpa [List.isEmpty_iff] using hne
      simp [parseSitemapDoc, hni, hroot, this, urlset_ne_index]
    · intro hnil
      have : (urlsetPass d.urls_sm).isEmpty := by
        simp [List.isEmpty_iff, hnil]
      simp [parseSitemapDoc, hni, hroot, this, urlset_ne_index]
  · intro hroot
    constructor
    · intro hne
      have : ¬ (indexPass d.sitemaps_sm).isEmpty := by
        simpa [List.isEmpty_iff] using hne
      simp [parseSitemapDoc, hroot, this]
    · intro hnil
      have : (indexPass d.sitemaps_sm).isEmpty := by
        simp [List.isEmpty_iff, hnil]
      simp [parseSitemapDoc, hroot, this]

/-- An index document populated only under the canonical namespace. -/
def docIndexSm : XmlDoc :=
  { root := rootIndex,
    sitemaps_sm := ["http://x/s1.xml".toList, "http://x/s2.xml".toList] }

/-- C3 witness: on `docIndexSm` the canonical pass is non-empty and is the
whole output. -/
theorem c3_witness :
    docIndexSm.root = rootIndex ∧
    indexPass docIndexSm.sitemaps_sm ≠ [] ∧
    (parseSitemapDoc docIndexSm).sitemaps = indexPass docIndexSm.sitemaps_sm :=
  ⟨by decide, by decide,
   ((c3_amended docIndexSm).2 (by decide)).1 (by decide)⟩

/-! Claim C5. -/

/-- The inflate behaviour of zlib on a truncated gzip stream: once the
input is exhausted mid-stream no progress is possible, so every call
returns Z_BUF_ERROR with nothing written — which the loop tolerates. -/
def stuckCap : InflateCap :=
  { initOk := true, step := fun _ => { ret := .bufError, out := [] } }

/-- A gzip header cut off after its two magic bytes. -/
def gzipHeaderOnly : Str := [Char.ofNat 0x1f, Char.ofNat 0x8b]

/-- With every inflate call answering Z_BUF_ERROR the loop never reaches
Z_STREAM_END or a fatal code, for any fuel. -/
theorem inflateLoop_stuck (fuel k : Nat) (acc : Str) :
    inflateLoop stuckCap fuel k acc = none := by
  induction fuel generalizing k acc with
  | zero => rfl
  | succ n ih =>
    have hstep : inflateLoop stuckCap (n + 1) k acc =
        inflateLoop stuckCap n (k + 1) (acc ++ []) := rfl
    rw [hstep, List.append_nil]
    exact ih (k + 1) acc

/-- C5, code bug: DecompressGzip is claimed total and terminating on every
byte string, but its do/while loop exits only on Z_STREAM_END or a fatal
return code while tolerating Z_BUF_ERROR; on a truncated gzip stream (for
example the bare two-byte magic), inflate returns Z_BUF_ERROR forever and
the loop never terminates — no amount of fuel finishes it. -/
theorem c5_nontermination :
    hasGzipMagic gzipHeaderOnly = true ∧
    stuckCap.initOk = true ∧
    (∀ fuel : Nat, decompressGzip stuckCap fuel gzipHeaderOnly = none) := by
  refine ⟨by decide, rfl, fun fuel => ?_⟩
  have hm : hasGzipMagic gzipHeaderOnly = true := by decide
  have h2 : stuckCap.initOk = true := rfl
  unfold decompressGzip
  rw [if_pos hm, if_pos h2]
  exact inflateLoop_stuck fuel 0 []

/-! Claim C7. -/

/-- Beyond the depth bound FetchSitemap is the identity on the collector
(shared helper). -/
theorem fetchSitemap_depth_stop (env : Env) (bind : SitemapBindData)
    (st : GState) (url : Str) (depth : Int) (h : depth > bind.max_depth) :
    FetchSitemap env bind st url depth = st := by
  rw [FetchSitemap]
  simp [h]

/-- C7: invoked beyond the depth bound, FetchSitemap returns the collector
untouched — no fetch is issued (the ghost fetch log is unchanged), no error
recorded, no entry appended. -/
theorem c7_depth_exceeded (env : Env) (bind : SitemapBindData) (st : GState)
    (url : Str) (depth : Int) (h : depth > bind.max_depth) :
    FetchSitemap env bind st url depth = st :=
  fetchSitemap_depth_stop env bind st url depth h

/-- An environment in which every URL fetches successfully and parses to a
one-child sitemapindex: an unbounded chain of index documents. -/
def envChain : Env :=
  { fetch := fun _ =>
      { status_code := 200, body := "x".toList,
        content_type := "application/xml".toList, success := true },
    inflateResult := fun _ => [],
    readXml := fun _ =>
      some { root := rootIndex, sitemaps_sm := ["https://e/s".toList] },
    findHtmlLinks := fun _ => [] }

/-- C7 witness: at depth 4 with the default max_depth of 3, even the
ever-productive chain environment contributes nothing — the state is
returned untouched. -/
theorem c7_witness :
    ((4 : Int) > ({} : SitemapBindData).max_depth) ∧
    FetchSitemap envChain {} {} ("https://e/s".toList) 4 = {} :=
  ⟨by decide, c7_depth_exceeded envChain {} {} ("https://e/s".toList) 4 (by decide)⟩

/-! Claim C9. -/

/-- The cache invariant: no stored candidate list is empty. -/
def cacheWF (c : Cache) : Prop := ∀ kv ∈ c, kv.2 ≠ []

/-- `SitemapCache::Set` with a non-empty list preserves the invariant. -/
theorem cacheSet_wf (c : Cache) (k : Str) (v : List Str) (hwf : cacheWF c)
    (hv : v ≠ []) : cacheWF (cacheSet c k v) := by
  unfold cacheSet
  split
  · intro kv hkv
    rcases List.mem_map.mp hkv with ⟨kv', hkv', heq⟩
    by_cases h : kv'.1 = k
    · simp only [h, if_true] at heq
      rw [← heq]
      exact hv
    · simp only [h, if_false] at heq
      rw [← heq]
      exact hwf kv' hkv'
  · intro kv hkv
    rcases List.mem_append.mp hkv with h | h
    · exact hwf kv h
    · have : kv = (k, v) := by simpa using h
      rw [this]
      exact hv

/-- C9: discovery never stores an empty candidate list — the invariant is
preserved by a full DiscoverSitemapUrls run — and a run that returns the
empty list (every strategy failed) leaves the cache exactly as it was, so a
later call for the same base URL re-runs the probe chain. -/
theorem c9_cache_invariant (env : Env) (base_url : Str)
    (bind : SitemapBindData) (c : Cache) (hwf : cacheWF c) :
    cacheWF (DiscoverSitemapUrls env base_url bind c).1 ∧
    ((DiscoverSitemapUrls env base_url bind c).2.1 = [] →
      (DiscoverSitemapUrls env base_url bind c).1 = c) := by
  unfold DiscoverSitemapUrls
  split
  · exact ⟨hwf, fun h => rfl⟩
  · unfold discoverRest
    simp only []
    split_ifs with h₁ h₂ h₃ h₄ h₅ h₆ h₇ h₈ <;>
      first
        | exact ⟨hwf, fun _ => rfl⟩
        | refine ⟨cacheSet_wf _ _ _ hwf (by simp_all [List.isEmpty_iff]), fun hurls => ?_⟩ <;>
            simp_all [List.isEmpty_iff]

/-- C9 witness: starting from the empty cache with an environment whose
every fetch fails, discovery returns the empty list and caches nothing. -/
theorem c9_witness :
    cacheWF ([] : Cache) ∧
    cacheWF (DiscoverSitemapUrls env0 urlNoScheme {} []).1 ∧
    ((DiscoverSitemapUrls env0 urlNoScheme {} []).2.1 = [] →
      (DiscoverSitemapUrls env0 urlNoScheme {} []).1 = []) := by
  refine ⟨?_, ?_, ?_⟩
  · intro kv hkv; cases hkv
  · exact (c9_cache_invariant env0 urlNoScheme {} []
      (fun kv hkv => absurd hkv (by simp))).1
  · exact (c9_cache_invariant env0 urlNoScheme {} []
      (fun kv hkv => absurd hkv (by simp))).2

/-! Claim C2. -/

/-- The post-decompression tail of FetchSitemap only appends to the
collector's entry list. -/
theorem afterContent_entries (env : Env) (st : GState) (url content : Str) :
    ∃ t, (afterContent env st url content).1.entries = st.entries ++ t := by
  unfold afterContent
  dsimp only
  split
  · exact ⟨[], by simp⟩
  · split
    · exact ⟨(parseSitemapBytes env.readXml content).urls, rfl⟩
    · exact ⟨[], by simp⟩

/-- FetchSitemap and its child loop only append to the collector's entry
list. -/
theorem fetch_entries_append (env : Env) (bind : SitemapBindData) :
    (∀ st url depth, ∃ t,
      (FetchSitemap env bind st url depth).entries = st.entries ++ t) ∧
    (∀ st ls depth, ∃ t,
      (fetchChildren env bind st ls depth).entries = st.entries ++ t) := by
  refine FetchSitemap.mutual_induct env bind
    (fun st url depth => ∃ t,
      (FetchSitemap env bind st url depth).entries = st.entries ++ t)
    (fun st ls depth => ∃ t,
      (fetchChildren env bind st ls depth).entries = st.entries ++ t)
    ?_ ?_ ?_ ?_ ?_ ?_ ?_
  · intro st url depth h
    exact ⟨[], by rw [fetchSitemap_depth_stop env bind st url depth h]; simp⟩
  · intro st url depth h r hf
    have hr : r = env.fetch url := rfl
    rw [hr] at hf
    refine ⟨[], ?_⟩
    rw [FetchSitemap, dif_neg h]
    dsimp only
    rw [if_pos hf]
    simp
  · intro st url depth h r hf hgz content hde
    have hr : r = env.fetch url := rfl
    rw [hr] at hf hgz
    have hco : content = decompressGzipE env (env.fetch url).body := by rw [← hr]
    rw [hco] at hde
    refine ⟨[], ?_⟩
    rw [FetchSitemap, dif_neg h]
    dsimp only
    rw [if_neg hf, if_pos hgz, if_pos hde]
    simp
  · intro st url depth h st₁ r hf hgz content hde st' children hac ih
    have hr : r = env.fetch url := rfl
    rw [hr] at hf hgz
    have hco : content = decompressGzipE env (env.fetch url).body := by rw [← hr]
    rw [hco] at hde hac
    have hst₁ : st₁ = { st with fetch_log := st.fetch_log ++ [url] } := rfl
    obtain ⟨t₂, ht₂⟩ := ih
    have hae := afterContent_entries env st₁ url
      (decompressGzipE env (env.fetch url).body)
    rw [hac] at hae
    obtain ⟨t₁, ht₁⟩ := hae
    refine ⟨t₁ ++ t₂, ?_⟩
    rw [FetchSitemap, dif_neg h]
    dsimp only
    rw [if_neg hf, if_pos hgz, if_neg hde, hac]
    dsimp only
    rw [ht₂, ht₁]
    rw [hst₁]
    simp [List.append_assoc]
  · intro st url depth h st₁ r hf hgz st' children hac ih
    have hr : r = env.fetch url := rfl
    rw [hr] at hf hgz hac
    have hst₁ : st₁ = { st with fetch_log := st.fetch_log ++ [url] } := rfl
    obtain ⟨t₂, ht₂⟩ := ih
    have hae := afterContent_entries env st₁ url (env.fetch url).body
    rw [hac] at hae
    obtain ⟨t₁, ht₁⟩ := hae
    refine ⟨t₁ ++ t₂, ?_⟩
    rw [FetchSitemap, dif_neg h]
    dsimp only
    rw [if_neg hf, if_neg hgz, hac]
    dsimp only
    rw [ht₂, ht₁]
    rw [hst₁]
    simp [List.append_assoc]
  · intro st depth
    exact ⟨[], by rw [fetchChildren]; simp⟩
  · intro st depth u rest ih₁ ih₂
    obtain ⟨t₁, ht₁⟩ := ih₁
    obtain ⟨t₂, ht₂⟩ := ih₂
    refine ⟨t₁ ++ t₂, ?_⟩
    rw [fetchChildren]
    show (fetchChildren env bind (FetchSitemap env bind st u depth) rest depth).entries = _
    rw [ht₂, ht₁, List.append_assoc]

/-- The per-base-URL candidate fold only appends to the entry list. -/
theorem foldl_fetch_entries_append (env : Env) (bind : SitemapBindData)
    (urls : List Str) (st : GState) :
    ∃ t, (urls.foldl (fun s u => FetchSitemap env bind s u 0) st).entries =
      st.entries ++ t := by
  induction urls generalizing st with
  | nil => exact ⟨[], by simp⟩
  | cons u rest ih =>
    obtain ⟨t₁, h₁⟩ := (fetch_entries_append env bind).1 st u 0
    obtain ⟨t₂, h₂⟩ := ih (FetchSitemap env bind st u 0)
    refine ⟨t₁ ++ t₂, ?_⟩
    rw [List.foldl_cons, h₂, h₁, List.append_assoc]

/-- C2: when a base URL contributes zero entries and ignore_errors is off,
the loop raises the hard failure immediately — the message cites the base
URL, plus the last recorded error when this base URL's processing recorded
any — and the remaining base URLs are never processed, while the entries
collected so far are carried unchanged in the state at the throw; with
ignore_errors on, the failure is suppressed and the loop moves to the next
base URL from the same state. -/
theorem c2_zero_entry_failure (env : Env) (bind : SitemapBindData) (c : Cache)
    (st : GState) (base_url : Str) (rest : List Str)
    (c' : Cache) (urls dlog : List Str)
    (hdisc : DiscoverSitemapUrls env base_url bind c = (c', urls, dlog))
    (st₁ st' : GState)
    (hst₁ : st₁ = { st with fetch_log := st.fetch_log ++ dlog })
    (hst' : st' = urls.foldl (fun s u => FetchSitemap env bind s u 0) st₁)
    (hzero : st'.entries.length = st.entries.length) :
    (bind.ignore_errors = false →
      initGlobalAux env bind (c, st) (base_url :: rest) =
        .error ((if st'.errors.length > st.errors.length ∧ st'.errors ≠ [] then
                   errNoSitemap base_url ++ ": ".toList ++ st'.errors.getLastD []
                 else errNoSitemap base_url), st') ∧
      st'.entries = st.entries) ∧
    (bind.ignore_errors = true →
      initGlobalAux env bind (c, st) (base_url :: rest) =
        initGlobalAux env bind (c', st') rest) := by
  have hst₁e : st₁.entries = st.entries := by rw [hst₁]
  have hentries : st'.entries = st.entries := by
    obtain ⟨t, ht⟩ := foldl_fetch_entries_append env bind urls st₁
    rw [← hst'] at ht
    rw [hst₁e] at ht
    have hl : t.length = 0 := by
      have := congrArg List.length ht
      rw [List.length_append] at this
      omega
    have ht0 : t = [] := List.eq_nil_of_length_eq_zero hl
    rw [ht0, List.append_nil] at ht
    exact ht
  have hfound : ¬ st'.entries.length > st.entries.length := by omega
  have hstep : initGlobalAux env bind (c, st) (base_url :: rest) =
      (if !decide (st'.entries.length > st.entries.length) &&
          !bind.ignore_errors then
        .error ((if decide (st'.errors.length > st.errors.length) &&
                    !st'.errors.isEmpty then
                   errNoSitemap base_url ++ ": ".toList ++ st'.errors.getLastD []
                 else errNoSitemap base_url), st')
      else initGlobalAux env bind (c', st') rest) := by
    rw [initGlobalAux, hdisc]
    dsimp only
    rw [← hst₁, ← hst']
  constructor
  · intro hig
    refine ⟨?_, hentries⟩
    rw [hstep, if_pos (by simp [hfound, hig])]
    by_cases h1 : st'.errors.length > st.errors.length
    · by_cases h2 : st'.errors = []
      · simp [h1, h2, List.isEmpty_iff]
      · simp [h1, h2, List.isEmpty_iff]
    · simp [h1]
  · intro hig
    rw [hstep, if_neg (by simp [hig])]

/-- A second base URL, to show the loop stops before reaching it. -/
def cwRest : Str := "https://other.example".toList

/-- The collector state after the failing base URL of the C2 witness. -/
def cwSt' : GState :=
  { errors := [errFetch directSitemapUrl []], fetch_log := [directSitemapUrl] }

/-- C2 witness: one direct sitemap URL whose fetch fails contributes zero
entries; with ignore_errors off the loop raises the failure citing the base
URL and the recorded fetch error, processing no further base URL. -/
theorem c2_witness :
    DiscoverSitemapUrls env0 directSitemapUrl {} [] =
      ([], [directSitemapUrl], []) ∧
    ({} : SitemapBindData).ignore_errors = false ∧
    initGlobalAux env0 {} ([], {}) [directSitemapUrl, cwRest] =
      .error (errNoSitemap directSitemapUrl ++ ": ".toList ++
        errFetch directSitemapUrl [], cwSt') ∧
    cwSt'.entries = [] := by
  have hfetch : FetchSitemap env0 ({} : SitemapBindData) ({} : GState)
      directSitemapUrl 0 = cwSt' := by
    rw [FetchSitemap,
      dif_neg (by decide : ¬ (0 : Int) > ({} : SitemapBindData).max_depth)]
    dsimp only
    simp [env0, cwSt']
  have hst' : cwSt' =
      [directSitemapUrl].foldl
        (fun s u => FetchSitemap env0 ({} : SitemapBindData) s u 0)
        ({} : GState) := by
    rw [List.foldl_cons, List.foldl_nil, hfetch]
  have h := c2_zero_entry_failure env0 {} [] {} directSitemapUrl [cwRest]
    [] [directSitemapUrl] [] (by decide) {} cwSt' rfl hst' rfl
  have h2 := (h.1 rfl).1
  rw [if_pos (by decide :
    cwSt'.errors.length > ({} : GState).errors.length ∧ cwSt'.errors ≠ [])] at h2
  have hlast : cwSt'.errors.getLastD [] = errFetch directSitemapUrl [] := by decide
  rw [hlast] at h2
  exact ⟨by decide, rfl, h2, rfl⟩

end SitemapExt
